import Mathlib

/-!
Verification of the CDP snapshot-diff event reconstruction core of
`cdp.py` (IndigoProtocol/discord-bots).

The Python functions `generate_cdp_events`, `create_cdp_event`,
`create_deposit_withdraw_or_freeze_event` and
`find_corresponding_cdp_with_owner` are embedded shallowly:

* a position record (one JSON object of a snapshot) becomes `CdpRecord`,
  with `owner : Option String` (`none` is JSON `null`; the sentinel
  strings `""` and `"NULL"` are `some` values, exactly as in Python where
  they are't `None`);
* Python `dict` comprehensions over lists become `pyDict`, an association
  list with Python's insertion-order / last-write-wins semantics;
* Python floats produced by `x / 1e6` become exact rationals `x / 1000000`;
* the reachable `KeyError` in the owned-records loop makes the embedded
  `generate_cdp_events` return `Option`: `none` models the raised
  exception, `some events` a normal return.
-/

namespace Cdp

inductive CdpEventType where
  | OPEN
  | CLOSE
  | DEPOSIT
  | WITHDRAW
  | FREEZE
  | MERGE
  deriving DecidableEq, Repr

/-- One position record of a `/cdps` snapshot, as consumed by
`generate_cdp_events`.  `owner = none` models JSON `null`. -/
structure CdpRecord where
  owner : Option String
  asset : String
  collateralAmount : Int
  mintedAmount : Int
  output_hash : String
  deriving DecidableEq, Repr

/-- The `CdpEvent` dataclass.  Amounts are exact rationals standing for the
Python floats. -/
structure CdpEvent where
  type : CdpEventType
  ada : ℚ
  new_collateral : Option ℚ
  tvl : ℚ
  iasset_name : String
  debt : ℚ
  owner : Option String
  tx_id : Option String
  deriving DecidableEq, Repr

/-- Key of an owned record: `(d['owner'], d['asset'])`. -/
abbrev OwnKey := Option String × String

/-- Key of an ownerless record:
`(d['collateralAmount'], d['mintedAmount'], d['asset'])`. -/
abbrev NoOwnKey := Int × Int × String

def ownKey (d : CdpRecord) : OwnKey := (d.owner, d.asset)

def noOwnKey (d : CdpRecord) : NoOwnKey :=
  (d.collateralAmount, d.mintedAmount, d.asset)

/-- Lookup in an association list (Python `dict[key]` / `key in dict`). -/
def alookup {K α : Type} [DecidableEq K] (k : K) : List (K × α) → Option α
  | [] => none
  | (k2, v) :: rest => if k2 = k then some v else alookup k rest

/-- Python dict comprehension `{f d: d for d in l}`: iteration order is the
order of first insertion of each key, and a later element with the same key
overwrites the stored value. -/
def pyDict {α K : Type} [DecidableEq K] (f : α → K) : List α → List (K × α)
  | [] => []
  | d :: rest =>
      (f d, (alookup (f d) (pyDict f rest)).getD d) ::
        (pyDict f rest).filter (fun p => decide (p.1 ≠ f d))

/-- `[d for d in l if d['owner'] is not None]`. -/
def withOwnerRecords (l : List CdpRecord) : List CdpRecord :=
  l.filter (fun d => d.owner.isSome)

/-- `[d for d in l if d['owner'] is None]`. -/
def withoutOwnerRecords (l : List CdpRecord) : List CdpRecord :=
  l.filter (fun d => d.owner.isNone)

/-- `tvl = sum([x['collateralAmount'] / 1e6 for x in new_list])`. -/
def snapshotTvl (new_list : List CdpRecord) : ℚ :=
  (new_list.map (fun x => (x.collateralAmount : ℚ) / 1000000)).sum

/-- `create_cdp_event`.  Note the Python default-substitution: an explicit
`None` argument is replaced by `cdp['collateralAmount'] / 1e6` resp.
`cdp['output_hash']`, so the produced event never has these fields absent. -/
def create_cdp_event (event_type : CdpEventType) (cdp : CdpRecord) (tvl : ℚ)
    (new_collateral : Option ℚ) (tx_id : Option String) : CdpEvent :=
  { type := event_type
    ada := (cdp.collateralAmount : ℚ) / 1000000
    new_collateral :=
      some (new_collateral.getD ((cdp.collateralAmount : ℚ) / 1000000))
    tvl := tvl
    iasset_name := cdp.asset
    debt := (cdp.mintedAmount : ℚ) / 1000000
    owner := cdp.owner
    tx_id := some (tx_id.getD cdp.output_hash) }

/-- `create_deposit_withdraw_or_freeze_event`, returning the list of events
it appends to `cdp_events`. -/
def create_deposit_withdraw_or_freeze_event (old_cdp new_cdp : CdpRecord)
    (tvl : ℚ) : List CdpEvent :=
  if new_cdp.collateralAmount ≠ old_cdp.collateralAmount then
    [{ type :=
        if old_cdp.collateralAmount < new_cdp.collateralAmount then
          CdpEventType.DEPOSIT
        else CdpEventType.WITHDRAW
       ada :=
        ((new_cdp.collateralAmount - old_cdp.collateralAmount).natAbs : ℚ) /
          1000000
       tvl := tvl
       new_collateral := some ((new_cdp.collateralAmount : ℚ) / 1000000)
       iasset_name := new_cdp.asset
       debt := (new_cdp.mintedAmount : ℚ) / 1000000
       owner := new_cdp.owner
       tx_id := some new_cdp.output_hash }]
  else if new_cdp.owner = none ∧ old_cdp.owner ≠ none then
    (if old_cdp.owner = some "" ∨ old_cdp.owner = some "NULL" then
      [{ type := CdpEventType.MERGE
         ada := (old_cdp.collateralAmount : ℚ) / 1000000
         new_collateral := some ((new_cdp.collateralAmount : ℚ) / 1000000)
         tvl := tvl
         iasset_name := old_cdp.asset
         debt := (old_cdp.mintedAmount : ℚ) / 1000000
         owner := none
         tx_id := some old_cdp.output_hash }]
    else []) ++
    [{ type := CdpEventType.FREEZE
       ada := (old_cdp.collateralAmount : ℚ) / 1000000
       new_collateral := some ((new_cdp.collateralAmount : ℚ) / 1000000)
       tvl := tvl
       iasset_name := old_cdp.asset
       debt := (old_cdp.mintedAmount : ℚ) / 1000000
       owner := old_cdp.owner
       tx_id := some old_cdp.output_hash }]
  else []

/-- `find_corresponding_cdp_with_owner`: linear scan, first match wins. -/
def find_corresponding_cdp_with_owner (cdp_list : List CdpRecord)
    (cdp_without_owner : CdpRecord) : Option CdpRecord :=
  cdp_list.find? (fun cdp =>
    decide (cdp.collateralAmount = cdp_without_owner.collateralAmount ∧
      cdp.mintedAmount = cdp_without_owner.mintedAmount ∧
      cdp.asset = cdp_without_owner.asset))

/-- One iteration of the owned-records loop of `generate_cdp_events`.
When the key is missing from the previous owned dict but the owner is the
literal `"NULL"`, the `else` branch executes
`old_dict_with_owner[new_key]` on a missing key: Python raises `KeyError`,
embedded as `none`. -/
def ownedEntryEvents (old_dict : List (OwnKey × CdpRecord)) (tvl : ℚ)
    (new_key : OwnKey) (new_cdp : CdpRecord) : Option (List CdpEvent) :=
  if alookup new_key old_dict = none ∧ new_cdp.owner ≠ some "NULL" then
    some [create_cdp_event CdpEventType.OPEN new_cdp tvl none none]
  else
    match alookup new_key old_dict with
    | none => none
    | some old_cdp =>
        some (create_deposit_withdraw_or_freeze_event old_cdp new_cdp tvl)

/-- The owned-records loop (`for new_key, new_cdp in
new_dict_with_owner.items()`), short-circuiting on the `KeyError`. -/
def processOwned (old_dict : List (OwnKey × CdpRecord)) (tvl : ℚ) :
    List (OwnKey × CdpRecord) → Option (List CdpEvent)
  | [] => some []
  | e :: rest =>
      match ownedEntryEvents old_dict tvl e.1 e.2,
          processOwned old_dict tvl rest with
      | some evs, some evsRest => some (evs ++ evsRest)
      | _, _ => none

/-- One iteration of the ownerless-records loop: the keys it marks frozen
and the FREEZE events it appends.  Note `new_collateral` is passed the raw
`new_cdp['collateralAmount']`, not divided by `1e6`. -/
def ownerlessEntryEvents (old_dict_wo : List (NoOwnKey × CdpRecord))
    (old_with_owner : List CdpRecord) (tvl : ℚ)
    (new_key : NoOwnKey) (new_cdp : CdpRecord) :
    List OwnKey × List CdpEvent :=
  if alookup new_key old_dict_wo = none then
    match find_corresponding_cdp_with_owner old_with_owner new_cdp with
    | some old_cdp =>
        ([(old_cdp.owner, old_cdp.asset)],
          [create_cdp_event CdpEventType.FREEZE old_cdp tvl
            (some ((new_cdp.collateralAmount : ℚ)))
            (some new_cdp.output_hash)])
    | none => ([], [])
  else ([], [])

/-- The ownerless-records loop, accumulating the `frozen` keys and the
FREEZE events in iteration order. -/
def processOwnerless (old_dict_wo : List (NoOwnKey × CdpRecord))
    (old_with_owner : List CdpRecord) (tvl : ℚ) :
    List (NoOwnKey × CdpRecord) → List OwnKey × List CdpEvent
  | [] => ([], [])
  | e :: rest =>
      let hd := ownerlessEntryEvents old_dict_wo old_with_owner tvl e.1 e.2
      let tl := processOwnerless old_dict_wo old_with_owner tvl rest
      (hd.1 ++ tl.1, hd.2 ++ tl.2)

/-- The closure loop: CLOSE for every previous owned key absent from the
current owned dict and not frozen this cycle. -/
def processClose (frozen : List OwnKey)
    (new_dict : List (OwnKey × CdpRecord)) (tvl : ℚ) :
    List (OwnKey × CdpRecord) → List CdpEvent
  | [] => []
  | e :: rest =>
      if e.1 ∈ frozen then processClose frozen new_dict tvl rest
      else if alookup e.1 new_dict = none then
        create_cdp_event CdpEventType.CLOSE e.2 tvl none none ::
          processClose frozen new_dict tvl rest
      else processClose frozen new_dict tvl rest

/-- `generate_cdp_events(old_list, new_list)`.  `none` models the raised
`KeyError`; `some events` the returned list. -/
def generate_cdp_events (old_list new_list : List CdpRecord) :
    Option (List CdpEvent) :=
  let old_with_owner := withOwnerRecords old_list
  let old_without_owner := withoutOwnerRecords old_list
  let new_with_owner := withOwnerRecords new_list
  let new_without_owner := withoutOwnerRecords new_list
  let old_dict_with_owner := pyDict ownKey old_with_owner
  let new_dict_with_owner := pyDict ownKey new_with_owner
  let old_dict_without_owner := pyDict noOwnKey old_without_owner
  let new_dict_without_owner := pyDict noOwnKey new_without_owner
  let tvl := snapshotTvl new_list
  match processOwned old_dict_with_owner tvl new_dict_with_owner with
  | none => none
  | some evs1 =>
      let fz := processOwnerless old_dict_without_owner old_with_owner tvl
        new_dict_without_owner
      let evs3 := processClose fz.1 new_dict_with_owner tvl
        old_dict_with_owner
      some (evs1 ++ fz.2 ++ evs3)

/-! Concrete records used by witnesses and counterexamples. -/

def recAlice : CdpRecord :=
  { owner := some "alice", asset := "iUSD", collateralAmount := 1000000000
    mintedAmount := 500000000, output_hash := "txprev" }

def recFrozenNew : CdpRecord :=
  { owner := none, asset := "iUSD", collateralAmount := 1000000000
    mintedAmount := 500000000, output_hash := "tx123" }

def recSentinel : CdpRecord :=
  { owner := some "", asset := "iUSD", collateralAmount := 1000000000
    mintedAmount := 500000000, output_hash := "txp" }

def recNullOwner : CdpRecord :=
  { owner := some "NULL", asset := "iUSD", collateralAmount := 5000000
    mintedAmount := 1000000, output_hash := "txn" }

def recBob : CdpRecord :=
  { owner := some "bob", asset := "iUSD", collateralAmount := 2000000000
    mintedAmount := 100000000, output_hash := "txb" }

def recBobAfter : CdpRecord :=
  { owner := some "bob", asset := "iUSD", collateralAmount := 3000000000
    mintedAmount := 100000000, output_hash := "txb2" }

/-- The single event the embedding produces for the sentinel freeze
scenario (`[recSentinel]` to `[recFrozenNew]`). -/
def freezeSentinelEvent : CdpEvent :=
  { type := CdpEventType.FREEZE, ada := 1000
    new_collateral := some 1000000000, tvl := 1000, iasset_name := "iUSD"
    debt := 500, owner := some "", tx_id := some "tx123" }

/-- The single event the embedding produces for the OPEN scenario
(`[]` to `[recAlice]`). -/
def openAliceEvent : CdpEvent :=
  { type := CdpEventType.OPEN, ada := 1000, new_collateral := some 1000
    tvl := 1000, iasset_name := "iUSD", debt := 500, owner := some "alice"
    tx_id := some "txprev" }

/-- The single event the embedding produces for the deposit scenario
(`[recBob]` to `[recBobAfter]`). -/
def depositBobEvent : CdpEvent :=
  { type := CdpEventType.DEPOSIT, ada := 1000, new_collateral := some 3000
    tvl := 3000, iasset_name := "iUSD", debt := 100, owner := some "bob"
    tx_id := some "txb2" }

/-! ### Association-list and Python-dict lemmas -/

theorem alookup_mem {K α : Type} [DecidableEq K] {k : K} {v : α}
    {es : List (K × α)} (h : alookup k es = some v) : (k, v) ∈ es := by
  induction es with
  | nil => simp [alookup] at h
  | cons p rest ih =>
      obtain ⟨k2, w⟩ := p
      simp only [alookup] at h
      by_cases hk : k2 = k
      · rw [if_pos hk] at h
        obtain rfl : w = v := Option.some.inj h
        subst hk
        exact List.mem_cons_self _ _
      · rw [if_neg hk] at h
        exact List.mem_cons_of_mem _ (ih h)

theorem alookup_filter_ne {K α : Type} [DecidableEq K] {k k0 : K}
    (h : k ≠ k0) (l : List (K × α)) :
    alookup k (l.filter (fun p => decide (p.1 ≠ k0))) = alookup k l := by
  induction l with
  | nil => rfl
  | cons p rest ih =>
      obtain ⟨k2, w⟩ := p
      by_cases h2 : k2 = k0
      · have hk2 : k2 ≠ k := fun hc => h (hc ▸ h2)
        have ht : (decide (((k2, w) : K × α).1 ≠ k0)) = false := by simp [h2]
        rw [List.filter_cons, ht]
        simp only [Bool.false_eq_true, if_false]
        rw [ih]
        simp [alookup, hk2]
      · simp only [List.filter_cons]
        have : (decide (¬(k2, w).1 = k0)) = true := by simp [h2]
        simp only [ne_eq] at this ⊢
        rw [if_pos this]
        simp only [alookup]
        by_cases hk : k2 = k
        · rw [if_pos hk, if_pos hk]
        · rw [if_neg hk, if_neg hk, ih]

theorem alookup_pyDict {α K : Type} [DecidableEq K] (f : α → K) (k : K)
    (l : List α) :
    alookup k (pyDict f l) =
      l.reverse.find? (fun d => decide (f d = k)) := by
  induction l with
  | nil => rfl
  | cons d rest ih =>
      simp only [pyDict, List.reverse_cons, List.find?_append]
      by_cases hk : f d = k
      · subst hk
        simp only [alookup, if_pos rfl]
        rw [ih]
        have hfd : List.find? (fun x => decide (f x = f d)) [d] = some d := by
          simp
        rw [hfd]
        cases rest.reverse.find? (fun x => decide (f x = f d)) <;>
          simp [Option.or]
      · simp only [alookup, if_neg hk]
        rw [alookup_filter_ne (fun hc => hk hc.symm), ih]
        have hfd : List.find? (fun x => decide (f x = k)) [d] = none := by
          simp [hk]
        rw [hfd]
        cases rest.reverse.find? (fun x => decide (f x = k)) <;>
          simp [Option.or]

theorem mem_pyDict {α K : Type} [DecidableEq K] {f : α → K} :
    ∀ (l : List α) (k : K) (v : α),
      (k, v) ∈ pyDict f l → k = f v ∧ v ∈ l := by
  intro l
  induction l with
  | nil => intro k v h; simp [pyDict] at h
  | cons d rest ih =>
      intro k v h
      simp only [pyDict, List.mem_cons] at h
      cases h with
      | inl h0 =>
          obtain ⟨hk, hv⟩ := Prod.mk.injEq .. ▸ h0
          cases hl : alookup (f d) (pyDict f rest) with
          | none =>
              rw [hl] at hv
              simp only [Option.getD_none] at hv
              subst hv
              exact ⟨hk, List.mem_cons_self _ _⟩
          | some u =>
              rw [hl] at hv
              simp only [Option.getD_some] at hv
              subst hv
              obtain ⟨hu1, hu2⟩ := ih (f d) v (alookup_mem hl)
              exact ⟨hk.trans hu1, List.mem_cons_of_mem _ hu2⟩
      | inr h0 =>
          obtain ⟨h1, h2⟩ := ih k v (List.mem_of_mem_filter h0)
          exact ⟨h1, List.mem_cons_of_mem _ h2⟩

theorem pyDict_keysNodup {α K : Type} [DecidableEq K] (f : α → K)
    (l : List α) : ((pyDict f l).map Prod.fst).Nodup := by
  induction l with
  | nil => simp [pyDict]
  | cons d rest ih =>
      simp only [pyDict, List.map_cons, List.nodup_cons]
      refine ⟨?keyFresh, ?tailNodup⟩
      · intro hmem
        rw [List.mem_map] at hmem
        obtain ⟨p, hp, hfst⟩ := hmem
        have hne := (List.mem_filter.mp hp).2
        simp only [ne_eq, decide_not, Bool.not_eq_eq_eq_not, Bool.not_true,
          decide_eq_false_iff_not, Decidable.not_not] at hne
        revert hne
        simp [hfst]
      · exact List.Nodup.sublist
          (List.Sublist.map Prod.fst (List.filter_sublist _)) ih

theorem alookup_of_mem_nodup {K α : Type} [DecidableEq K] :
    ∀ (es : List (K × α)), (es.map Prod.fst).Nodup →
      ∀ (k : K) (v : α), (k, v) ∈ es → alookup k es = some v := by
  intro es
  induction es with
  | nil => intro _ k v h; simp at h
  | cons p rest ih =>
      intro hnd k v h
      obtain ⟨k2, w⟩ := p
      rw [List.map_cons, List.nodup_cons] at hnd
      rw [List.mem_cons] at h
      cases h with
      | inl h0 =>
          obtain ⟨hk, hv⟩ := Prod.mk.injEq .. ▸ h0
          subst hk
          subst hv
          simp [alookup]
      | inr h0 =>
          have hk2 : k2 ≠ k := by
            intro hc
            subst hc
            exact hnd.1 (List.mem_map.mpr ⟨(k2, v), h0, rfl⟩)
          simp only [alookup, if_neg hk2]
          exact ih hnd.2 k v h0

theorem alookup_pyDict_of_unique {α K : Type} [DecidableEq K] (f : α → K)
    {l : List α} {r : α} (hr : r ∈ l)
    (huniq : ∀ r2 ∈ l, f r2 = f r → r2 = r) :
    alookup (f r) (pyDict f l) = some r := by
  rw [alookup_pyDict]
  cases hfind : l.reverse.find? (fun d => decide (f d = f r)) with
  | none =>
      rw [List.find?_eq_none] at hfind
      exact absurd (by simp : (decide (f r = f r)) = true)
        (hfind r (List.mem_reverse.mpr hr))
  | some u =>
      have h1 := List.find?_some hfind
      have h2 := List.mem_of_find?_eq_some hfind
      rw [List.mem_reverse] at h2
      simp only [decide_eq_true_eq] at h1
      rw [huniq u h2 h1]

theorem alookup_pyDict_eq_none {α K : Type} [DecidableEq K] (f : α → K)
    {l : List α} {k : K} (h : ∀ r ∈ l, f r ≠ k) :
    alookup k (pyDict f l) = none := by
  rw [alookup_pyDict, List.find?_eq_none]
  intro x hx
  simp only [decide_eq_true_eq]
  exact h x (List.mem_reverse.mp hx)

theorem pyDict_mem_alookup {α K : Type} [DecidableEq K] {f : α → K}
    {l : List α} {k : K} {v : α} (h : (k, v) ∈ pyDict f l) :
    alookup k (pyDict f l) = some v :=
  alookup_of_mem_nodup _ (pyDict_keysNodup f l) _ _ h

theorem mem_pyDict_of_unique {α K : Type} [DecidableEq K] (f : α → K)
    {l : List α} {r : α} (hr : r ∈ l)
    (huniq : ∀ r2 ∈ l, f r2 = f r → r2 = r) :
    (f r, r) ∈ pyDict f l :=
  alookup_mem (alookup_pyDict_of_unique f hr huniq)

/-! ### Per-phase lemmas about the embedded loops -/

theorem ownedEntryEvents_spec {od : List (OwnKey × CdpRecord)} {tvl : ℚ}
    {k : OwnKey} {v : CdpRecord} (hk : k = ownKey v)
    (hs : v.owner.isSome) {evs : List CdpEvent}
    (h : ownedEntryEvents od tvl k v = some evs) :
    ∀ e ∈ evs, (e.owner, e.iasset_name) = k ∧ e.tvl = tvl ∧
      (e.type = CdpEventType.OPEN ∨ e.type = CdpEventType.DEPOSIT ∨
        e.type = CdpEventType.WITHDRAW) := by
  intro e he
  unfold ownedEntryEvents at h
  split at h
  · obtain rfl : [create_cdp_event CdpEventType.OPEN v tvl none none] = evs :=
      Option.some.inj h
    rw [List.mem_singleton] at he
    subst he
    exact ⟨by rw [hk]; rfl, rfl, Or.inl rfl⟩
  · cases hl : alookup k od with
    | none => rw [hl] at h; exact absurd h (by simp)
    | some old_cdp =>
        rw [hl] at h
        obtain rfl : create_deposit_withdraw_or_freeze_event old_cdp v tvl =
            evs := Option.some.inj h
        unfold create_deposit_withdraw_or_freeze_event at he
        split at he
        · rw [List.mem_singleton] at he
          subst he
          refine ⟨by rw [hk]; rfl, rfl, ?depwith⟩
          by_cases hlt :
              old_cdp.collateralAmount < v.collateralAmount
          · rw [if_pos hlt]
            exact Or.inr (Or.inl rfl)
          · rw [if_neg hlt]
            exact Or.inr (Or.inr rfl)
        · split at he
          · rename_i hcond
            rw [hcond.1] at hs
            exact absurd hs (by simp)
          · simp at he

theorem processOwned_mem_ex (od : List (OwnKey × CdpRecord)) (tvl : ℚ) :
    ∀ (es : List (OwnKey × CdpRecord)) (evs : List CdpEvent),
      processOwned od tvl es = some evs →
      ∀ e ∈ evs, ∃ p ∈ es, ∃ evsP,
        ownedEntryEvents od tvl p.1 p.2 = some evsP ∧ e ∈ evsP := by
  intro es
  induction es with
  | nil =>
      intro evs h e he
      obtain rfl : ([] : List CdpEvent) = evs := Option.some.inj h
      simp at he
  | cons p rest ih =>
      intro evs h e he
      unfold processOwned at h
      cases h1 : ownedEntryEvents od tvl p.1 p.2 with
      | none => rw [h1] at h; exact absurd h (by simp)
      | some evsP =>
          cases h2 : processOwned od tvl rest with
          | none => rw [h1, h2] at h; exact absurd h (by simp)
          | some evsR =>
              rw [h1, h2] at h
              obtain rfl : evsP ++ evsR = evs := Option.some.inj h
              rw [List.mem_append] at he
              cases he with
              | inl he0 => exact ⟨p, List.mem_cons_self _ _, evsP, h1, he0⟩
              | inr he0 =>
                  obtain ⟨q, hq, evsQ, hq2, hq3⟩ := ih evsR h2 e he0
                  exact ⟨q, List.mem_cons_of_mem _ hq, evsQ, hq2, hq3⟩

theorem processOwned_filter_notmem {od : List (OwnKey × CdpRecord)}
    {tvl : ℚ} {es : List (OwnKey × CdpRecord)} {evs : List CdpEvent}
    (h : processOwned od tvl es = some evs)
    (hwf : ∀ p ∈ es, p.1 = ownKey p.2 ∧ p.2.owner.isSome)
    {k : OwnKey} (hk : ∀ p ∈ es, p.1 ≠ k) :
    evs.filter (fun e => decide ((e.owner, e.iasset_name) = k)) = [] := by
  rw [List.filter_eq_nil_iff]
  intro e he
  obtain ⟨p, hp, evsP, hp2, hp3⟩ := processOwned_mem_ex od tvl es evs h e he
  have hkey := (ownedEntryEvents_spec (hwf p hp).1 (hwf p hp).2 hp2 e hp3).1
  simp only [decide_eq_true_eq]
  rw [hkey]
  exact hk p hp

theorem processOwned_filter_key (od : List (OwnKey × CdpRecord)) (tvl : ℚ) :
    ∀ (es : List (OwnKey × CdpRecord)) (evs : List CdpEvent),
      processOwned od tvl es = some evs →
      (∀ p ∈ es, p.1 = ownKey p.2 ∧ p.2.owner.isSome) →
      (es.map Prod.fst).Nodup →
      ∀ (k : OwnKey) (r : CdpRecord), (k, r) ∈ es →
        ∀ (evr : List CdpEvent), ownedEntryEvents od tvl k r = some evr →
          evs.filter (fun e => decide ((e.owner, e.iasset_name) = k)) =
            evr.filter (fun e => decide ((e.owner, e.iasset_name) = k)) := by
  intro es
  induction es with
  | nil =>
      intro evs h hwf hnd k r hkr
      simp at hkr
  | cons p rest ih =>
      intro evs h hwf hnd k r hkr evr hevr
      unfold processOwned at h
      cases h1 : ownedEntryEvents od tvl p.1 p.2 with
      | none => rw [h1] at h; exact absurd h (by simp)
      | some evsP =>
          cases h2 : processOwned od tvl rest with
          | none => rw [h1, h2] at h; exact absurd h (by simp)
          | some evsR =>
              rw [h1, h2] at h
              obtain rfl : evsP ++ evsR = evs := Option.some.inj h
              rw [List.map_cons, List.nodup_cons] at hnd
              rw [List.filter_append]
              rw [List.mem_cons] at hkr
              cases hkr with
              | inl h0 =>
                  obtain ⟨hk1, hk2⟩ := Prod.mk.injEq .. ▸ h0.symm
                  subst hk1
                  subst hk2
                  rw [h1] at hevr
                  obtain rfl : evsP = evr := Option.some.inj hevr
                  have hrest :
                      evsR.filter
                        (fun e => decide ((e.owner, e.iasset_name) = p.1)) =
                        [] := by
                    refine processOwned_filter_notmem h2
                      (fun q hq => hwf q (List.mem_cons_of_mem _ hq))
                      (fun q hq hc => hnd.1 ?keyInTail)
                    rw [← hc]
                    exact List.mem_map.mpr ⟨q, hq, rfl⟩
                  rw [hrest, List.append_nil]
              | inr h0 =>
                  have hp1 : p.1 ≠ k := by
                    intro hc
                    refine hnd.1 ?keyInTail2
                    rw [hc]
                    exact List.mem_map.mpr ⟨(k, r), h0, rfl⟩
                  have hhead :
                      evsP.filter
                        (fun e => decide ((e.owner, e.iasset_name) = k)) =
                        [] := by
                    rw [List.filter_eq_nil_iff]
                    intro e he
                    have hkey := (ownedEntryEvents_spec
                      (hwf p (List.mem_cons_self _ _)).1
                      (hwf p (List.mem_cons_self _ _)).2 h1 e he).1
                    simp only [decide_eq_true_eq]
                    rw [hkey]
                    exact hp1
                  rw [hhead, List.nil_append]
                  exact ih evsR h2
                    (fun q hq => hwf q (List.mem_cons_of_mem _ hq))
                    hnd.2 k r h0 evr hevr

theorem processOwnerless_spec (odw : List (NoOwnKey × CdpRecord))
    (owl : List CdpRecord) (tvl : ℚ) :
    ∀ (es : List (NoOwnKey × CdpRecord)),
      ∀ e ∈ (processOwnerless odw owl tvl es).2,
        e.type = CdpEventType.FREEZE ∧ e.tvl = tvl := by
  intro es
  induction es with
  | nil => intro e he; simp [processOwnerless] at he
  | cons p rest ih =>
      intro e he
      unfold processOwnerless at he
      rw [List.mem_append] at he
      cases he with
      | inl he0 =>
          unfold ownerlessEntryEvents at he0
          split at he0
          · cases hf : find_corresponding_cdp_with_owner owl p.2 with
            | none => rw [hf] at he0; simp at he0
            | some old_cdp =>
                rw [hf] at he0
                rw [List.mem_singleton] at he0
                subst he0
                exact ⟨rfl, rfl⟩
          · simp at he0
      | inr he0 => exact ih e he0

theorem processClose_spec (frozen : List OwnKey)
    (nd : List (OwnKey × CdpRecord)) (tvl : ℚ) :
    ∀ (es : List (OwnKey × CdpRecord)),
      ∀ e ∈ processClose frozen nd tvl es,
        e.type = CdpEventType.CLOSE ∧ e.tvl = tvl := by
  intro es
  induction es with
  | nil => intro e he; simp [processClose] at he
  | cons p rest ih =>
      intro e he
      unfold processClose at he
      split at he
      · exact ih e he
      · split at he
        · rw [List.mem_cons] at he
          cases he with
          | inl he0 => subst he0; exact ⟨rfl, rfl⟩
          | inr he0 => exact ih e he0
        · exact ih e he

theorem processOwned_all_nil (od : List (OwnKey × CdpRecord)) (tvl : ℚ) :
    ∀ es : List (OwnKey × CdpRecord),
      (∀ q ∈ es, ownedEntryEvents od tvl q.1 q.2 = some []) →
      processOwned od tvl es = some [] := by
  intro es
  induction es with
  | nil => intro _; rfl
  | cons q rest ih =>
      intro h
      unfold processOwned
      rw [h q (List.mem_cons_self _ _),
        ih (fun w hw => h w (List.mem_cons_of_mem _ hw))]
      rfl

theorem processOwnerless_all_nil (odw : List (NoOwnKey × CdpRecord))
    (owl : List CdpRecord) (tvl : ℚ) :
    ∀ es : List (NoOwnKey × CdpRecord),
      (∀ q ∈ es, ownerlessEntryEvents odw owl tvl q.1 q.2 = ([], [])) →
      processOwnerless odw owl tvl es = ([], []) := by
  intro es
  induction es with
  | nil => intro _; rfl
  | cons q rest ih =>
      intro h
      simp only [processOwnerless]
      rw [h q (List.mem_cons_self _ _),
        ih (fun w hw => h w (List.mem_cons_of_mem _ hw))]
      rfl

theorem processClose_all_nil (frozen : List OwnKey)
    (nd : List (OwnKey × CdpRecord)) (tvl : ℚ) :
    ∀ es : List (OwnKey × CdpRecord),
      (∀ q ∈ es, ¬alookup q.1 nd = none) →
      processClose frozen nd tvl es = [] := by
  intro es
  induction es with
  | nil => intro _; rfl
  | cons q rest ih =>
      intro h
      unfold processClose
      by_cases hf : q.1 ∈ frozen
      · rw [if_pos hf]
        exact ih (fun w hw => h w (List.mem_cons_of_mem _ hw))
      · rw [if_neg hf, if_neg (h q (List.mem_cons_self _ _))]
        exact ih (fun w hw => h w (List.mem_cons_of_mem _ hw))

/-- Unfolding of `generate_cdp_events` into its three phases. -/
theorem generate_cdp_events_def (old_list new_list : List CdpRecord) :
    generate_cdp_events old_list new_list =
      (processOwned (pyDict ownKey (withOwnerRecords old_list))
          (snapshotTvl new_list)
          (pyDict ownKey (withOwnerRecords new_list))).map
        (fun evs1 =>
          evs1 ++
            (processOwnerless
                (pyDict noOwnKey (withoutOwnerRecords old_list))
                (withOwnerRecords old_list) (snapshotTvl new_list)
                (pyDict noOwnKey (withoutOwnerRecords new_list))).2 ++
            processClose
              (processOwnerless
                  (pyDict noOwnKey (withoutOwnerRecords old_list))
                  (withOwnerRecords old_list) (snapshotTvl new_list)
                  (pyDict noOwnKey (withoutOwnerRecords new_list))).1
              (pyDict ownKey (withOwnerRecords new_list))
              (snapshotTvl new_list)
              (pyDict ownKey (withOwnerRecords old_list))) := by
  simp only [generate_cdp_events]
  cases processOwned (pyDict ownKey (withOwnerRecords old_list))
      (snapshotTvl new_list) (pyDict ownKey (withOwnerRecords new_list)) with
  | none => rfl
  | some evs1 => rfl

/-- C1: evaluation of the code at the failing input.  With the previous
snapshot `[recAlice]` and an empty current snapshot, the single CLOSE event
carries `new_collateral = some 1000` and `tx_id = some "txprev"`: the
explicit `None` arguments at the CLOSE call site are replaced by
`create_cdp_event`'s `is not None` default substitution, so neither field
is absent as the spec requires. -/
theorem close_event_retains_new_collateral_and_tx_id :
    generate_cdp_events [recAlice] [] =
      some [{ type := CdpEventType.CLOSE, ada := 1000
              new_collateral := some 1000, tvl := 0, iasset_name := "iUSD"
              debt := 500, owner := some "alice"
              tx_id := some "txprev" }] := by
  simp only [generate_cdp_events, withOwnerRecords, withoutOwnerRecords,
    snapshotTvl, pyDict, alookup, processOwned, ownedEntryEvents,
    processOwnerless, ownerlessEntryEvents, processClose, create_cdp_event,
    create_deposit_withdraw_or_freeze_event,
    find_corresponding_cdp_with_owner, ownKey, noOwnKey, recAlice,
    List.filter, List.map, List.sum, List.find?]
  norm_num

/-- C2: evaluation of the code at the failing input.  In the freeze
scenario the FREEZE event's `new_collateral` is the raw smallest-unit
`1000000000`, not `1000`: the call passes `new_cdp['collateralAmount']`
without dividing by `1e6`.  The other claimed fields (owner, txId, no
CLOSE) do hold. -/
theorem freeze_event_new_collateral_not_divided :
    generate_cdp_events [recAlice] [recFrozenNew] =
      some [{ type := CdpEventType.FREEZE, ada := 1000
              new_collateral := some 1000000000, tvl := 1000
              iasset_name := "iUSD", debt := 500, owner := some "alice"
              tx_id := some "tx123" }] := by
  simp only [generate_cdp_events, withOwnerRecords, withoutOwnerRecords,
    snapshotTvl, pyDict, alookup, processOwned, ownedEntryEvents,
    processOwnerless, ownerlessEntryEvents, processClose, create_cdp_event,
    create_deposit_withdraw_or_freeze_event,
    find_corresponding_cdp_with_owner, ownKey, noOwnKey, recAlice,
    recFrozenNew, List.filter, List.map, List.sum, List.find?]
  norm_num

/-- C3 counterexample: with previous owner the sentinel `""` and the same
amounts reappearing ownerless, the output is a single FREEZE event and no
MERGE event precedes it — the MERGE branch of
`create_deposit_withdraw_or_freeze_event` is unreachable from
`generate_cdp_events`. -/
theorem sentinel_freeze_has_no_merge :
    generate_cdp_events [recSentinel] [recFrozenNew] =
      some [{ type := CdpEventType.FREEZE, ada := 1000
              new_collateral := some 1000000000, tvl := 1000
              iasset_name := "iUSD", debt := 500, owner := some ""
              tx_id := some "tx123" }] ∧
    ((generate_cdp_events [recSentinel] [recFrozenNew]).getD []).filter
      (fun e => decide (e.type = CdpEventType.MERGE)) = [] := by
  have h : generate_cdp_events [recSentinel] [recFrozenNew] =
      some [{ type := CdpEventType.FREEZE, ada := 1000
              new_collateral := some 1000000000, tvl := 1000
              iasset_name := "iUSD", debt := 500, owner := some ""
              tx_id := some "tx123" }] := by
    simp only [generate_cdp_events, withOwnerRecords, withoutOwnerRecords,
      snapshotTvl, pyDict, alookup, processOwned, ownedEntryEvents,
      processOwnerless, ownerlessEntryEvents, processClose, create_cdp_event,
      create_deposit_withdraw_or_freeze_event,
      find_corresponding_cdp_with_owner, ownKey, noOwnKey, recSentinel,
      recFrozenNew, List.filter, List.map, List.sum, List.find?]
    norm_num
  refine ⟨h, ?_⟩
  rw [h]
  simp [List.filter]

/-- C4 counterexample: a record whose owner is the sentinel string
`"NULL"` is placed in the owned subset (it fails `owner is None`) and keyed
by `(owner, asset)` in the owned dict; the ownerless subset is empty, so it
is never keyed by `(collateralAmount, mintedAmount, asset)`. -/
theorem sentinel_owner_keyed_as_owned :
    withoutOwnerRecords [recNullOwner] = [] ∧
    withOwnerRecords [recNullOwner] = [recNullOwner] ∧
    pyDict ownKey (withOwnerRecords [recNullOwner]) =
      [((some "NULL", "iUSD"), recNullOwner)] ∧
    pyDict noOwnKey (withoutOwnerRecords [recNullOwner]) = [] := by
  refine ⟨?side1, ?side2, ?side3, ?side4⟩ <;>
    simp [withOwnerRecords, withoutOwnerRecords, pyDict, alookup, ownKey,
      noOwnKey, recNullOwner, List.filter]

/-- C3 (amended): on a freeze transition whose previous owner was a
sentinel string, only the FREEZE event is emitted; no MERGE event precedes
it, because `generate_cdp_events` never emits a MERGE event at all: the
MERGE branch of `create_deposit_withdraw_or_freeze_event` requires the
current record's owner to be `None`, but that function is only reached
from the loop over current records whose owner is not `None`. -/
theorem generate_cdp_events_no_merge (old_list new_list : List CdpRecord)
    (evs : List CdpEvent)
    (h : generate_cdp_events old_list new_list = some evs) :
    ∀ e ∈ evs, e.type ≠ CdpEventType.MERGE := by
  intro e he
  rw [generate_cdp_events_def] at h
  cases hp : processOwned (pyDict ownKey (withOwnerRecords old_list))
      (snapshotTvl new_list) (pyDict ownKey (withOwnerRecords new_list)) with
  | none => rw [hp] at h; exact absurd h (by simp)
  | some evs1 =>
      rw [hp] at h
      simp only [Option.map_some'] at h
      obtain rfl := (Option.some.inj h).symm
      rw [List.append_assoc, List.mem_append] at he
      cases he with
      | inl he1 =>
          obtain ⟨p, hpmem, evsP, hP, heP⟩ :=
            processOwned_mem_ex _ _ _ _ hp e he1
          obtain ⟨q1, q2⟩ := p
          obtain ⟨hk, hv⟩ := mem_pyDict _ _ _ hpmem
          have hsome : q2.owner.isSome :=
            (List.mem_filter.mp hv).2
          have := (ownedEntryEvents_spec hk hsome hP e heP).2.2
          rcases this with h0 | h0 | h0 <;> simp [h0]
      | inr he2 =>
          rw [List.mem_append] at he2
          cases he2 with
          | inl he3 =>
              have := (processOwnerless_spec _ _ _ _ e he3).1
              simp [this]
          | inr he4 =>
              have := (processClose_spec _ _ _ _ e he4).1
              simp [this]

/-- Witness for `generate_cdp_events_no_merge` at the sentinel freeze
scenario. -/
theorem generate_cdp_events_no_merge_witness :
    generate_cdp_events [recSentinel] [recFrozenNew] =
      some [freezeSentinelEvent] ∧
    freezeSentinelEvent.type ≠ CdpEventType.MERGE := by
  have hgen : generate_cdp_events [recSentinel] [recFrozenNew] =
      some [freezeSentinelEvent] := by
    simp only [generate_cdp_events, withOwnerRecords, withoutOwnerRecords,
      snapshotTvl, pyDict, alookup, processOwned, ownedEntryEvents,
      processOwnerless, ownerlessEntryEvents, processClose, create_cdp_event,
      create_deposit_withdraw_or_freeze_event,
      find_corresponding_cdp_with_owner, ownKey, noOwnKey, recSentinel,
      recFrozenNew, freezeSentinelEvent, List.filter, List.map, List.sum,
      List.find?]
    norm_num
  exact ⟨hgen, generate_cdp_events_no_merge [recSentinel] [recFrozenNew]
    [freezeSentinelEvent] hgen freezeSentinelEvent (by simp)⟩

/-- C4 (amended): only records whose owner is the JSON `null` are placed in
the ownerless subset; a record whose owner is the sentinel string `""` or
`"NULL"` is placed in the owned subset (and hence keyed by
`(owner, asset)`), not in the ownerless subset. -/
theorem sentinel_string_owner_in_owned_subset (l : List CdpRecord)
    (r : CdpRecord) (hmem : r ∈ l)
    (hs : r.owner = some "" ∨ r.owner = some "NULL") :
    r ∈ withOwnerRecords l ∧ r ∉ withoutOwnerRecords l := by
  have hsome : r.owner.isSome := by
    cases hs with
    | inl h0 => rw [h0]; rfl
    | inr h0 => rw [h0]; rfl
  constructor
  · rw [withOwnerRecords, List.mem_filter]
    exact ⟨hmem, hsome⟩
  · rw [withoutOwnerRecords, List.mem_filter]
    intro hcon
    have := hcon.2
    rw [Option.isNone_iff_eq_none] at this
    rw [this] at hsome
    exact absurd hsome (by simp)

/-- Witness for `sentinel_string_owner_in_owned_subset` at a concrete
`"NULL"`-owner record. -/
theorem sentinel_string_owner_in_owned_subset_witness :
    recNullOwner ∈ [recNullOwner] ∧
    recNullOwner ∈ withOwnerRecords [recNullOwner] ∧
    recNullOwner ∉ withoutOwnerRecords [recNullOwner] := by
  refine ⟨by simp, ?mainPart⟩
  have := sentinel_string_owner_in_owned_subset [recNullOwner] recNullOwner
    (by simp) (Or.inr rfl)
  exact this

/-- C8: every event of one `generate_cdp_events` call carries the same
`tvl`, the sum of `collateralAmount / 1e6` over all records (owned and
ownerless) of the current snapshot. -/
theorem tvl_uniform_over_call (old_list new_list : List CdpRecord)
    (evs : List CdpEvent)
    (h : generate_cdp_events old_list new_list = some evs) :
    (∀ e ∈ evs, e.tvl = snapshotTvl new_list) ∧
    snapshotTvl new_list =
      (new_list.map (fun x => (x.collateralAmount : ℚ) / 1000000)).sum := by
  refine ⟨?everyEvent, rfl⟩
  intro e he
  rw [generate_cdp_events_def] at h
  cases hp : processOwned (pyDict ownKey (withOwnerRecords old_list))
      (snapshotTvl new_list) (pyDict ownKey (withOwnerRecords new_list)) with
  | none => rw [hp] at h; exact absurd h (by simp)
  | some evs1 =>
      rw [hp] at h
      simp only [Option.map_some'] at h
      obtain rfl := (Option.some.inj h).symm
      rw [List.append_assoc, List.mem_append] at he
      cases he with
      | inl he1 =>
          obtain ⟨p, hpmem, evsP, hP, heP⟩ :=
            processOwned_mem_ex _ _ _ _ hp e he1
          obtain ⟨q1, q2⟩ := p
          obtain ⟨hk, hv⟩ := mem_pyDict _ _ _ hpmem
          exact (ownedEntryEvents_spec hk (List.mem_filter.mp hv).2 hP
            e heP).2.1
      | inr he2 =>
          rw [List.mem_append] at he2
          cases he2 with
          | inl he3 => exact (processOwnerless_spec _ _ _ _ e he3).2
          | inr he4 => exact (processClose_spec _ _ _ _ e he4).2

/-- Witness for `tvl_uniform_over_call` at a concrete OPEN scenario. -/
theorem tvl_uniform_over_call_witness :
    generate_cdp_events [] [recAlice] = some [openAliceEvent] ∧
    (∀ e ∈ [openAliceEvent], e.tvl = snapshotTvl [recAlice]) ∧
    snapshotTvl [recAlice] =
      ([recAlice].map (fun x => (x.collateralAmount : ℚ) / 1000000)).sum := by
  have hgen : generate_cdp_events [] [recAlice] = some [openAliceEvent] := by
    simp only [generate_cdp_events, withOwnerRecords, withoutOwnerRecords,
      snapshotTvl, pyDict, alookup, processOwned, ownedEntryEvents,
      processOwnerless, ownerlessEntryEvents, processClose, create_cdp_event,
      create_deposit_withdraw_or_freeze_event,
      find_corresponding_cdp_with_owner, ownKey, noOwnKey, recAlice,
      openAliceEvent, List.filter, List.map, List.sum, List.find?]
    norm_num
    simp
  exact ⟨hgen, tvl_uniform_over_call [] [recAlice] [openAliceEvent] hgen⟩

/-- C5: evaluation of the code at the failing input.  A current record with
owner the literal string `"NULL"` whose `(owner, asset)` key is absent from
the previous owned dict sends the owned loop into its `else` branch, where
`old_dict_with_owner[new_key]` misses: the Python raises `KeyError`
(embedded as `none`) instead of returning an event list. -/
theorem null_owner_open_raises_key_error :
    generate_cdp_events [] [recNullOwner] = none := by
  simp only [generate_cdp_events, withOwnerRecords, withoutOwnerRecords,
    snapshotTvl, pyDict, alookup, processOwned, ownedEntryEvents,
    processOwnerless, ownerlessEntryEvents, processClose, create_cdp_event,
    create_deposit_withdraw_or_freeze_event,
    find_corresponding_cdp_with_owner, ownKey, noOwnKey, recNullOwner,
    List.filter, List.map, List.sum, List.find?]
  norm_num

/-- C6: a current owned record `r` with a real owner (not the `"NULL"`
sentinel) whose `(owner, asset)` key is absent from the previous snapshot
produces exactly one OPEN event for that key, whose `ada` (collateralDelta)
and `new_collateral` both equal `r.collateralAmount / 1e6`. -/
theorem open_event_exactly_once (old_list new_list : List CdpRecord)
    (r : CdpRecord) (s : String) (evs : List CdpEvent)
    (hmem : r ∈ new_list) (howner : r.owner = some s)
    (hnotnull : s ≠ "NULL")
    (huniq : ∀ r2 ∈ new_list, ownKey r2 = ownKey r → r2 = r)
    (habsent : ∀ r2 ∈ old_list, ownKey r2 ≠ ownKey r)
    (hgen : generate_cdp_events old_list new_list = some evs) :
    evs.filter (fun e => decide (e.type = CdpEventType.OPEN) &&
        decide ((e.owner, e.iasset_name) = ownKey r)) =
      [create_cdp_event CdpEventType.OPEN r (snapshotTvl new_list)
        none none] ∧
    (create_cdp_event CdpEventType.OPEN r (snapshotTvl new_list) none
        none).ada = (r.collateralAmount : ℚ) / 1000000 ∧
    (create_cdp_event CdpEventType.OPEN r (snapshotTvl new_list) none
        none).new_collateral =
      some ((r.collateralAmount : ℚ) / 1000000) := by
  refine ⟨?main, rfl, rfl⟩
  have hrw : r ∈ withOwnerRecords new_list := by
    rw [withOwnerRecords, List.mem_filter]
    exact ⟨hmem, by rw [howner]; rfl⟩
  have huniqW : ∀ r2 ∈ withOwnerRecords new_list,
      ownKey r2 = ownKey r → r2 = r :=
    fun r2 h2 => huniq r2 (List.mem_of_mem_filter h2)
  have hentry : (ownKey r, r) ∈ pyDict ownKey (withOwnerRecords new_list) :=
    mem_pyDict_of_unique ownKey hrw huniqW
  have hlook : alookup (ownKey r)
      (pyDict ownKey (withOwnerRecords old_list)) = none :=
    alookup_pyDict_eq_none ownKey
      (fun u hu => habsent u (List.mem_of_mem_filter hu))
  have hevr : ownedEntryEvents (pyDict ownKey (withOwnerRecords old_list))
      (snapshotTvl new_list) (ownKey r) r =
      some [create_cdp_event CdpEventType.OPEN r (snapshotTvl new_list)
        none none] := by
    have hcond : alookup (ownKey r)
        (pyDict ownKey (withOwnerRecords old_list)) = none ∧
        r.owner ≠ some "NULL" := by
      refine ⟨hlook, ?notNull⟩
      rw [howner]
      intro hc
      exact hnotnull (Option.some.inj hc)
    unfold ownedEntryEvents
    rw [if_pos hcond]
  rw [generate_cdp_events_def] at hgen
  cases hp : processOwned (pyDict ownKey (withOwnerRecords old_list))
      (snapshotTvl new_list) (pyDict ownKey (withOwnerRecords new_list)) with
  | none => rw [hp] at hgen; exact absurd hgen (by simp)
  | some evs1 =>
      rw [hp] at hgen
      simp only [Option.map_some'] at hgen
      obtain rfl := (Option.some.inj hgen).symm
      rw [List.filter_append, List.filter_append]
      have hwf : ∀ q ∈ pyDict ownKey (withOwnerRecords new_list),
          q.1 = ownKey q.2 ∧ q.2.owner.isSome := by
        intro q hq
        obtain ⟨q1, q2⟩ := q
        obtain ⟨hk, hv⟩ := mem_pyDict _ _ _ hq
        exact ⟨hk, (List.mem_filter.mp hv).2⟩
      have hkeyfilter := processOwned_filter_key _ _ _ _ hp hwf
        (pyDict_keysNodup _ _) (ownKey r) r hentry _ hevr
      have h2 : (processOwnerless
          (pyDict noOwnKey (withoutOwnerRecords old_list))
          (withOwnerRecords old_list) (snapshotTvl new_list)
          (pyDict noOwnKey (withoutOwnerRecords new_list))).2.filter
          (fun e => decide (e.type = CdpEventType.OPEN) &&
            decide ((e.owner, e.iasset_name) = ownKey r)) = [] := by
        rw [List.filter_eq_nil_iff]
        intro e he
        have := (processOwnerless_spec _ _ _ _ e he).1
        simp [this]
      have h3 : (processClose
          (processOwnerless (pyDict noOwnKey (withoutOwnerRecords old_list))
            (withOwnerRecords old_list) (snapshotTvl new_list)
            (pyDict noOwnKey (withoutOwnerRecords new_list))).1
          (pyDict ownKey (withOwnerRecords new_list)) (snapshotTvl new_list)
          (pyDict ownKey (withOwnerRecords old_list))).filter
          (fun e => decide (e.type = CdpEventType.OPEN) &&
            decide ((e.owner, e.iasset_name) = ownKey r)) = [] := by
        rw [List.filter_eq_nil_iff]
        intro e he
        have := (processClose_spec _ _ _ _ e he).1
        simp [this]
      rw [h2, h3, List.append_nil, List.append_nil]
      rw [← List.filter_filter]
      rw [hkeyfilter]
      simp [create_cdp_event, ownKey]

/-- Witness for `open_event_exactly_once` at a concrete OPEN scenario. -/
theorem open_event_exactly_once_witness :
    generate_cdp_events [] [recAlice] = some [openAliceEvent] ∧
    ([openAliceEvent].filter (fun e =>
        decide (e.type = CdpEventType.OPEN) &&
        decide ((e.owner, e.iasset_name) = ownKey recAlice)) =
      [create_cdp_event CdpEventType.OPEN recAlice (snapshotTvl [recAlice])
        none none] ∧
    (create_cdp_event CdpEventType.OPEN recAlice (snapshotTvl [recAlice])
        none none).ada = (recAlice.collateralAmount : ℚ) / 1000000 ∧
    (create_cdp_event CdpEventType.OPEN recAlice (snapshotTvl [recAlice])
        none none).new_collateral =
      some ((recAlice.collateralAmount : ℚ) / 1000000)) := by
  have hgen : generate_cdp_events [] [recAlice] = some [openAliceEvent] := by
    simp only [generate_cdp_events, withOwnerRecords, withoutOwnerRecords,
      snapshotTvl, pyDict, alookup, processOwned, ownedEntryEvents,
      processOwnerless, ownerlessEntryEvents, processClose, create_cdp_event,
      create_deposit_withdraw_or_freeze_event,
      find_corresponding_cdp_with_owner, ownKey, noOwnKey, recAlice,
      openAliceEvent, List.filter, List.map, List.sum, List.find?]
    norm_num
    simp
  refine ⟨hgen, open_event_exactly_once [] [recAlice] recAlice "alice"
    [openAliceEvent] (by simp) rfl (by simp)
    (fun r2 h2 _ => by simpa using h2) (fun r2 h2 => by simp at h2) hgen⟩

/-- C7: an `(owner, asset)` key present in the owned maps of both
snapshots with differing `collateralAmount` produces exactly one DEPOSIT
(current greater) or WITHDRAW (current smaller) event, with
`ada = |Δcollateral| / 1e6` and `new_collateral` the current collateral
divided by `1e6`. -/
theorem deposit_withdraw_event_exactly_once
    (old_list new_list : List CdpRecord) (p c : CdpRecord)
    (evs : List CdpEvent)
    (hpmem : p ∈ old_list) (hcmem : c ∈ new_list)
    (hpowner : p.owner.isSome) (hkey : ownKey p = ownKey c)
    (hpuniq : ∀ r2 ∈ old_list, ownKey r2 = ownKey p → r2 = p)
    (hcuniq : ∀ r2 ∈ new_list, ownKey r2 = ownKey c → r2 = c)
    (hne : c.collateralAmount ≠ p.collateralAmount)
    (hgen : generate_cdp_events old_list new_list = some evs) :
    evs.filter (fun e =>
        (decide (e.type = CdpEventType.DEPOSIT) ||
          decide (e.type = CdpEventType.WITHDRAW)) &&
        decide ((e.owner, e.iasset_name) = ownKey c)) =
      [{ type := if p.collateralAmount < c.collateralAmount then
            CdpEventType.DEPOSIT else CdpEventType.WITHDRAW
         ada := (((c.collateralAmount - p.collateralAmount).natAbs : ℕ) : ℚ)
           / 1000000
         tvl := snapshotTvl new_list
         new_collateral := some ((c.collateralAmount : ℚ) / 1000000)
         iasset_name := c.asset
         debt := (c.mintedAmount : ℚ) / 1000000
         owner := c.owner
         tx_id := some c.output_hash }] := by
  have hcowner : c.owner.isSome := by
    have : p.owner = c.owner := congrArg Prod.fst hkey
    rw [← this]
    exact hpowner
  have hcw : c ∈ withOwnerRecords new_list := by
    rw [withOwnerRecords, List.mem_filter]
    exact ⟨hcmem, hcowner⟩
  have hpw : p ∈ withOwnerRecords old_list := by
    rw [withOwnerRecords, List.mem_filter]
    exact ⟨hpmem, hpowner⟩
  have hcuniqW : ∀ r2 ∈ withOwnerRecords new_list,
      ownKey r2 = ownKey c → r2 = c :=
    fun r2 h2 => hcuniq r2 (List.mem_of_mem_filter h2)
  have hpuniqW : ∀ r2 ∈ withOwnerRecords old_list,
      ownKey r2 = ownKey p → r2 = p :=
    fun r2 h2 => hpuniq r2 (List.mem_of_mem_filter h2)
  have hentry : (ownKey c, c) ∈ pyDict ownKey (withOwnerRecords new_list) :=
    mem_pyDict_of_unique ownKey hcw hcuniqW
  have hlookC : alookup (ownKey c)
      (pyDict ownKey (withOwnerRecords old_list)) = some p := by
    rw [← hkey]
    exact alookup_pyDict_of_unique ownKey hpw hpuniqW
  have hdep : create_deposit_withdraw_or_freeze_event p c
      (snapshotTvl new_list) =
      [{ type := if p.collateralAmount < c.collateralAmount then
            CdpEventType.DEPOSIT else CdpEventType.WITHDRAW
         ada := (((c.collateralAmount - p.collateralAmount).natAbs : ℕ) : ℚ)
           / 1000000
         tvl := snapshotTvl new_list
         new_collateral := some ((c.collateralAmount : ℚ) / 1000000)
         iasset_name := c.asset
         debt := (c.mintedAmount : ℚ) / 1000000
         owner := c.owner
         tx_id := some c.output_hash }] := by
    unfold create_deposit_withdraw_or_freeze_event
    rw [if_pos hne]
  have hevr : ownedEntryEvents (pyDict ownKey (withOwnerRecords old_list))
      (snapshotTvl new_list) (ownKey c) c =
      some (create_deposit_withdraw_or_freeze_event p c
        (snapshotTvl new_list)) := by
    have hcond : ¬(alookup (ownKey c)
        (pyDict ownKey (withOwnerRecords old_list)) = none ∧
        c.owner ≠ some "NULL") := by
      intro hc
      rw [hlookC] at hc
      exact absurd hc.1 (by simp)
    unfold ownedEntryEvents
    rw [if_neg hcond, hlookC]
  rw [generate_cdp_events_def] at hgen
  cases hp : processOwned (pyDict ownKey (withOwnerRecords old_list))
      (snapshotTvl new_list) (pyDict ownKey (withOwnerRecords new_list)) with
  | none => rw [hp] at hgen; exact absurd hgen (by simp)
  | some evs1 =>
      rw [hp] at hgen
      simp only [Option.map_some'] at hgen
      obtain rfl := (Option.some.inj hgen).symm
      rw [List.filter_append, List.filter_append]
      have hwf : ∀ q ∈ pyDict ownKey (withOwnerRecords new_list),
          q.1 = ownKey q.2 ∧ q.2.owner.isSome := by
        intro q hq
        obtain ⟨q1, q2⟩ := q
        obtain ⟨hk, hv⟩ := mem_pyDict _ _ _ hq
        exact ⟨hk, (List.mem_filter.mp hv).2⟩
      have hkeyfilter := processOwned_filter_key _ _ _ _ hp hwf
        (pyDict_keysNodup _ _) (ownKey c) c hentry _ hevr
      have h2 : (processOwnerless
          (pyDict noOwnKey (withoutOwnerRecords old_list))
          (withOwnerRecords old_list) (snapshotTvl new_list)
          (pyDict noOwnKey (withoutOwnerRecords new_list))).2.filter
          (fun e =>
            (decide (e.type = CdpEventType.DEPOSIT) ||
              decide (e.type = CdpEventType.WITHDRAW)) &&
            decide ((e.owner, e.iasset_name) = ownKey c)) = [] := by
        rw [List.filter_eq_nil_iff]
        intro e he
        have := (processOwnerless_spec _ _ _ _ e he).1
        simp [this]
      have h3 : (processClose
          (processOwnerless (pyDict noOwnKey (withoutOwnerRecords old_list))
            (withOwnerRecords old_list) (snapshotTvl new_list)
            (pyDict noOwnKey (withoutOwnerRecords new_list))).1
          (pyDict ownKey (withOwnerRecords new_list)) (snapshotTvl new_list)
          (pyDict ownKey (withOwnerRecords old_list))).filter
          (fun e =>
            (decide (e.type = CdpEventType.DEPOSIT) ||
              decide (e.type = CdpEventType.WITHDRAW)) &&
            decide ((e.owner, e.iasset_name) = ownKey c)) = [] := by
        rw [List.filter_eq_nil_iff]
        intro e he
        have := (processClose_spec _ _ _ _ e he).1
        simp [this]
      rw [h2, h3, List.append_nil, List.append_nil]
      rw [← List.filter_filter]
      rw [hkeyfilter, hdep]
      by_cases hlt : p.collateralAmount < c.collateralAmount
      · simp [ownKey, hlt, hkey]
      · simp [ownKey, hlt, hkey]

/-- Witness for `deposit_withdraw_event_exactly_once` at a concrete
deposit. -/
theorem deposit_withdraw_event_exactly_once_witness :
    generate_cdp_events [recBob] [recBobAfter] = some [depositBobEvent] ∧
    [depositBobEvent].filter (fun e =>
        (decide (e.type = CdpEventType.DEPOSIT) ||
          decide (e.type = CdpEventType.WITHDRAW)) &&
        decide ((e.owner, e.iasset_name) = ownKey recBobAfter)) =
      [{ type := if recBob.collateralAmount < recBobAfter.collateralAmount
            then CdpEventType.DEPOSIT else CdpEventType.WITHDRAW
         ada := (((recBobAfter.collateralAmount -
             recBob.collateralAmount).natAbs : ℕ) : ℚ) / 1000000
         tvl := snapshotTvl [recBobAfter]
         new_collateral := some ((recBobAfter.collateralAmount : ℚ)
           / 1000000)
         iasset_name := recBobAfter.asset
         debt := (recBobAfter.mintedAmount : ℚ) / 1000000
         owner := recBobAfter.owner
         tx_id := some recBobAfter.output_hash }] := by
  have hgen : generate_cdp_events [recBob] [recBobAfter] =
      some [depositBobEvent] := by
    simp only [generate_cdp_events, withOwnerRecords, withoutOwnerRecords,
      snapshotTvl, pyDict, alookup, processOwned, ownedEntryEvents,
      processOwnerless, ownerlessEntryEvents, processClose, create_cdp_event,
      create_deposit_withdraw_or_freeze_event,
      find_corresponding_cdp_with_owner, ownKey, noOwnKey, recBob,
      recBobAfter, depositBobEvent, List.filter, List.map, List.sum,
      List.find?]
    norm_num
    simp
  refine ⟨hgen, deposit_withdraw_event_exactly_once [recBob] [recBobAfter]
    recBob recBobAfter [depositBobEvent] (by simp) (by simp) rfl rfl
    (fun r2 h2 _ => by simpa using h2) (fun r2 h2 _ => by simpa using h2)
    (by norm_num [recBob, recBobAfter]) hgen⟩

/-- C9: when the previous and current snapshots have the same records
(identical content in any order) and each snapshot satisfies the
key-uniqueness invariant for both its owned and ownerless subsets,
`generate_cdp_events` returns the empty event list. -/
theorem identical_snapshots_empty (old_list new_list : List CdpRecord)
    (hperm : old_list.Perm new_list)
    (hndow : ((withOwnerRecords old_list).map ownKey).Nodup)
    (hndnw : ((withOwnerRecords new_list).map ownKey).Nodup)
    (hndoo : ((withoutOwnerRecords old_list).map noOwnKey).Nodup)
    (hndno : ((withoutOwnerRecords new_list).map noOwnKey).Nodup) :
    generate_cdp_events old_list new_list = some [] := by
  rw [generate_cdp_events_def]
  have h1 : processOwned (pyDict ownKey (withOwnerRecords old_list))
      (snapshotTvl new_list) (pyDict ownKey (withOwnerRecords new_list)) =
      some [] := by
    refine processOwned_all_nil _ _ _ ?entries
    intro q hq
    obtain ⟨k, v⟩ := q
    obtain ⟨hk, hv⟩ := mem_pyDict _ _ _ hq
    have hvsome : v.owner.isSome := (List.mem_filter.mp hv).2
    have hvoldw : v ∈ withOwnerRecords old_list := by
      rw [withOwnerRecords, List.mem_filter]
      exact ⟨hperm.mem_iff.mpr (List.mem_of_mem_filter hv), hvsome⟩
    have hlook : alookup (ownKey v)
        (pyDict ownKey (withOwnerRecords old_list)) = some v :=
      alookup_pyDict_of_unique ownKey hvoldw
        (fun r2 h2 h3 => List.inj_on_of_nodup_map hndow h2 hvoldw h3)
    subst hk
    have hcond : ¬(alookup (ownKey v)
        (pyDict ownKey (withOwnerRecords old_list)) = none ∧
        v.owner ≠ some "NULL") := by
      intro hc
      rw [hlook] at hc
      exact absurd hc.1 (by simp)
    unfold ownedEntryEvents
    rw [if_neg hcond, hlook]
    have hnilEvents : create_deposit_withdraw_or_freeze_event v v
        (snapshotTvl new_list) = [] := by
      unfold create_deposit_withdraw_or_freeze_event
      rw [if_neg (by simp), if_neg ?selfFreeze]
      case selfFreeze =>
        intro hc
        rw [hc.1] at hvsome
        exact absurd hvsome (by simp)
    exact congrArg some hnilEvents
  have h2 : processOwnerless (pyDict noOwnKey (withoutOwnerRecords old_list))
      (withOwnerRecords old_list) (snapshotTvl new_list)
      (pyDict noOwnKey (withoutOwnerRecords new_list)) = ([], []) := by
    refine processOwnerless_all_nil _ _ _ _ ?entriesWo
    intro q hq
    obtain ⟨k, v⟩ := q
    obtain ⟨hk, hv⟩ := mem_pyDict _ _ _ hq
    have hvnone : v.owner.isNone := (List.mem_filter.mp hv).2
    have hvold : v ∈ withoutOwnerRecords old_list := by
      rw [withoutOwnerRecords, List.mem_filter]
      exact ⟨hperm.mem_iff.mpr (List.mem_of_mem_filter hv), hvnone⟩
    have hlook : alookup (noOwnKey v)
        (pyDict noOwnKey (withoutOwnerRecords old_list)) = some v :=
      alookup_pyDict_of_unique noOwnKey hvold
        (fun r2 h2 h3 => List.inj_on_of_nodup_map hndoo h2 hvold h3)
    subst hk
    unfold ownerlessEntryEvents
    rw [if_neg (by rw [hlook]; simp)]
  have h3 : processClose ([] : List OwnKey)
      (pyDict ownKey (withOwnerRecords new_list)) (snapshotTvl new_list)
      (pyDict ownKey (withOwnerRecords old_list)) = [] := by
    refine processClose_all_nil _ _ _ _ ?entriesCl
    intro q hq
    obtain ⟨k, v⟩ := q
    obtain ⟨hk, hv⟩ := mem_pyDict _ _ _ hq
    have hvsome : v.owner.isSome := (List.mem_filter.mp hv).2
    have hvnew : v ∈ withOwnerRecords new_list := by
      rw [withOwnerRecords, List.mem_filter]
      exact ⟨hperm.mem_iff.mp (List.mem_of_mem_filter hv), hvsome⟩
    have hlook : alookup (ownKey v)
        (pyDict ownKey (withOwnerRecords new_list)) = some v :=
      alookup_pyDict_of_unique ownKey hvnew
        (fun r2 h2 h3 => List.inj_on_of_nodup_map hndnw h2 hvnew h3)
    subst hk
    rw [hlook]
    simp
  rw [h1]
  simp only [Option.map_some']
  rw [h2]
  simp [h3]

/-- Witness for `identical_snapshots_empty` at a concrete permuted pair. -/
theorem identical_snapshots_empty_witness :
    generate_cdp_events [recAlice, recFrozenNew] [recFrozenNew, recAlice] =
      some [] :=
  identical_snapshots_empty [recAlice, recFrozenNew]
    [recFrozenNew, recAlice] (List.Perm.swap recFrozenNew recAlice [])
    (by simp [withOwnerRecords, recAlice, recFrozenNew, ownKey,
      List.filter])
    (by simp [withOwnerRecords, recAlice, recFrozenNew, ownKey,
      List.filter])
    (by simp [withoutOwnerRecords, recAlice, recFrozenNew, noOwnKey,
      List.filter])
    (by simp [withoutOwnerRecords, recAlice, recFrozenNew, noOwnKey,
      List.filter])

end Cdp
